import Mathlib

/-!
Verification of the hook dispatcher and auth-environment resolver
(`packages/shared/src`): a shallow embedding of the configuration
schema/compatibility layer (`hooks-simple/schemas.ts`), the session
metadata store of the hook system, the session title generator, and the
pure auth resolver (`auth/resolve-auth-env.ts`), with theorems settling
the specified properties.
-/

namespace CraftAgents

/-! ## Auth Environment Resolver (`auth/resolve-auth-env.ts`) -/

/-- JavaScript truthiness of a nullable string: `null` and the empty
string are falsy, every other string is truthy. -/
def truthy : Option String → Bool
  | none => false
  | some s => !(s == "")

/-- `AuthEnvInput.billing`: the billing/auth state the resolver reads.
`type` is the `AuthType | null` union, kept as its string value
(`'bedrock'`, `'oauth_token'`, `'api_key'`, ...); only the comparisons
against `'bedrock'` and `'oauth_token'` matter to the resolver. -/
structure Billing where
  type : Option String
  hasCredentials : Bool
  apiKey : Option String
  claudeOAuthToken : Option String
deriving DecidableEq, Repr

/-- `AuthEnvInput` from `resolve-auth-env.ts`. -/
structure AuthEnvInput where
  billing : Billing
  customBaseUrl : Option String
deriving DecidableEq, Repr

/-- `AuthEnvResult`: `set` is a string-keyed record (kept as an
association list in insertion order), `delete` a list of variable
names, `error?` an optional message. -/
structure AuthEnvResult where
  set : List (String × String)
  delete : List String
  error : Option String := none
deriving DecidableEq, Repr

/-- `resolveAuthEnv` from `auth/resolve-auth-env.ts`, clause for clause.
JS truthiness tests (`if (input.customBaseUrl)`,
`input.billing.apiKey || 'not-needed'`, ...) become `truthy`. -/
def resolveAuthEnv (input : AuthEnvInput) : AuthEnvResult :=
  if input.billing.type = some "bedrock" then
    { set := [], delete := [] }
  else if truthy input.customBaseUrl then
    { set := [("ANTHROPIC_BASE_URL", input.customBaseUrl.getD ""),
              ("ANTHROPIC_API_KEY",
                if truthy input.billing.apiKey then input.billing.apiKey.getD ""
                else "not-needed")],
      delete := ["CLAUDE_CODE_OAUTH_TOKEN"] }
  else if input.billing.type = some "oauth_token" ∧ truthy input.billing.claudeOAuthToken then
    { set := [("CLAUDE_CODE_OAUTH_TOKEN", input.billing.claudeOAuthToken.getD "")],
      delete := ["ANTHROPIC_API_KEY", "ANTHROPIC_BASE_URL"] }
  else if truthy input.billing.apiKey then
    { set := [("ANTHROPIC_API_KEY", input.billing.apiKey.getD "")],
      delete := ["CLAUDE_CODE_OAUTH_TOKEN", "ANTHROPIC_BASE_URL"] }
  else
    { set := [], delete := [], error := some "No authentication configured" }

/-! ## Hooks schema data model (`hooks-simple/schemas.ts`) -/

/-- `HookDefinitionSchema`: discriminated union of `CommandHookSchema`
(`type: 'command'`, non-empty `command`, optional positive `timeout`)
and `PromptHookSchema` (`type: 'prompt'`, non-empty `prompt`). -/
inductive HookDefinition
  | command (command : String) (timeout : Option Int)
  | prompt (prompt : String)
deriving DecidableEq, Repr

/-- `HookMatcherSchema`: one configured reaction. All fields optional
except `hooks`, which must hold at least one definition (checked by
validation, not by the type). -/
structure HookMatcher where
  matcher : Option String := none
  cron : Option String := none
  timezone : Option String := none
  permissionMode : Option String := none
  labels : Option (List String) := none
  enabled : Option Bool := none
  hooks : List HookDefinition
deriving DecidableEq, Repr

/-- `ValidationIssue` (shape produced by `zodErrorToIssues`): file,
dotted path, message, severity. -/
structure ValidationIssue where
  file : String
  path : String
  message : String
  severity : String
deriving DecidableEq, Repr

/-- Validation of one `HookDefinition` at dotted path `p`: a command
must be non-empty and its timeout, if present, strictly positive; a
prompt must be non-empty. Returns the (possibly empty) issue list. -/
def validateHookDefinition (file p : String) : HookDefinition → List ValidationIssue
  | .command c t =>
    (if c.length ≥ 1 then [] else
      [⟨file, p ++ ".command", "Command cannot be empty", "error"⟩]) ++
    (match t with
     | none => []
     | some n => if 0 < n then [] else
        [⟨file, p ++ ".timeout", "Number must be greater than 0", "error"⟩])
  | .prompt s =>
    if s.length ≥ 1 then [] else
      [⟨file, p ++ ".prompt", "Prompt cannot be empty", "error"⟩]

/-- Validation of a hook-definition array, issue paths indexed from `i`. -/
def validateHookDefinitions (file p : String) : Nat → List HookDefinition → List ValidationIssue
  | _, [] => []
  | i, d :: ds =>
    validateHookDefinition file (p ++ "." ++ toString i) d ++
    validateHookDefinitions file p (i + 1) ds

/-- Validation of one `HookMatcher` at dotted path `p`: the
`permissionMode`, when present, must be one of the three literals, and
`hooks` must hold at least one valid definition. -/
def validateHookMatcher (file p : String) (m : HookMatcher) : List ValidationIssue :=
  (match m.permissionMode with
   | none => []
   | some pm =>
     if pm = "safe" ∨ pm = "ask" ∨ pm = "allow-all" then [] else
       [⟨file, p ++ ".permissionMode", "Invalid enum value", "error"⟩]) ++
  (if m.hooks.length ≥ 1 then [] else
    [⟨file, p ++ ".hooks", "At least one hook required", "error"⟩]) ++
  validateHookDefinitions file (p ++ ".hooks") 0 m.hooks

/-- Validation of a matcher array, issue paths indexed from `i`. -/
def validateHookMatchers (file p : String) : Nat → List HookMatcher → List ValidationIssue
  | _, [] => []
  | i, m :: ms =>
    validateHookMatcher file (p ++ "." ++ toString i) m ++
    validateHookMatchers file p (i + 1) ms

/-- Validation of the whole `hooks` record (event name to matcher
array, in declaration order). -/
def validateHooksRecord (file : String) : List (String × List HookMatcher) → List ValidationIssue
  | [] => []
  | (k, ms) :: rest =>
    validateHookMatchers file ("hooks." ++ k) 0 ms ++ validateHooksRecord file rest

/-! ## Compatibility transform (`HooksConfigSchema.transform`) -/

/-- The static Deprecation Table from `HooksConfigSchema`:
`TodoStateChange` maps to `StatusStateChange`. -/
def DEPRECATED_EVENTS (event : String) : Option String :=
  if event = "TodoStateChange" then some "StatusStateChange" else none

/-- A `console.warn` emitted during the transform: either the
per-deprecated-key warning naming old and new identifiers, or the
single end-of-pass warning listing all unknown event keys. -/
inductive HooksWarning
  | deprecatedEvent (oldName newName : String)
  | unknownEvents (events : List String)
deriving DecidableEq, Repr

/-- JS-object write `o[k] = [...(o[k] ?? []), ...ms]` on a string-keyed
record held as an association list: appends to the existing key in
place, or pushes a new key at the end (JS insertion order). -/
def upsertAppend {α : Type} (h : List (String × List α)) (k : String) (ms : List α) :
    List (String × List α) :=
  match h with
  | [] => [(k, ms)]
  | (k', v) :: rest =>
    if k' = k then (k', v ++ ms) :: rest else (k', v) :: upsertAppend rest k ms

/-- Record read `o[k] ?? []` on an association list. -/
def lookupD {α : Type} (h : List (String × List α)) (k : String) : List α :=
  match h with
  | [] => []
  | (k', v) :: rest => if k' = k then v else lookupD rest k

/-- Accumulator of the transform's loop: `validHooks`, `invalidEvents`,
and the warnings emitted so far. -/
structure TransformState where
  validHooks : List (String × List HookMatcher)
  invalidEvents : List String
  warnings : List HooksWarning
deriving DecidableEq, Repr

/-- One iteration of the transform's `for` loop over
`Object.entries(data.hooks)`: deprecated keys are warned about and
merged under their replacement, valid keys appended under themselves,
anything else recorded as unknown. `validEvents` stands for
`VALID_EVENTS = [...APP_EVENTS, ...AGENT_EVENTS]` whose member list
lives in `types.ts`, outside this slice, so it is kept as a parameter. -/
def hooksStep (validEvents : List String) (acc : TransformState)
    (entry : String × List HookMatcher) : TransformState :=
  match DEPRECATED_EVENTS entry.1 with
  | some renamedTo =>
    { acc with
      validHooks := upsertAppend acc.validHooks renamedTo entry.2,
      warnings := acc.warnings ++ [.deprecatedEvent entry.1 renamedTo] }
  | none =>
    if entry.1 ∈ validEvents then
      { acc with validHooks := upsertAppend acc.validHooks entry.1 entry.2 }
    else
      { acc with invalidEvents := acc.invalidEvents ++ [entry.1] }

/-- The transform's loop over all raw entries, in declaration order. -/
def processEntries (validEvents : List String) (acc : TransformState) :
    List (String × List HookMatcher) → TransformState
  | [] => acc
  | e :: rest => processEntries validEvents (hooksStep validEvents acc e) rest

/-- The whole `HooksConfigSchema.transform` body on the `hooks` record:
run the loop from an empty accumulator, then emit the single
unknown-events warning when any key was unknown. -/
def hooksTransform (validEvents : List String)
    (rawHooks : List (String × List HookMatcher)) : TransformState :=
  let st := processEntries validEvents ⟨[], [], []⟩ rawHooks
  if st.invalidEvents = [] then st
  else { st with warnings := st.warnings ++ [.unknownEvents st.invalidEvents] }

/-- Modelled from the spec: `HookSystem.getMatchersForEvent` lives in
`hook-system.ts`, which is not in this slice; per §4.2 it is lookup of
the event in the validated configuration's mapping, returning the
ordered matcher list, or the empty list when the event is absent. -/
def getMatchersForEvent (validHooks : List (String × List HookMatcher))
    (event : String) : List HookMatcher :=
  lookupD validHooks event

/-- Whether raw key `key` contributes its matchers to output event
`target`: either `key` is deprecated with replacement `target`, or
`key = target` and `key` is a valid event. -/
def resolvesTo (validEvents : List String) (key target : String) : Bool :=
  match DEPRECATED_EVENTS key with
  | some renamedTo => renamedTo == target
  | none => key == target && decide (key ∈ validEvents)

/-- Discriminates the single end-of-pass unknown-events warning from
the per-key deprecation warnings. -/
def isUnknownWarning : HooksWarning → Bool
  | .unknownEvents _ => true
  | .deprecatedEvent _ _ => false

/-- Raw `HooksConfigSchema` input before the transform: optional
version plus the `hooks` record. -/
structure RawHooksConfig where
  version : Option Int := none
  hooks : List (String × List HookMatcher)
deriving DecidableEq, Repr

/-- Full parse of a hooks file: validate every matcher first (zod
checks field constraints before running `.transform`); any issue fails
the whole file (fail-closed, no partial configuration), otherwise the
remapped configuration is returned. -/
def parseHooksConfig (validEvents : List String) (file : String) (raw : RawHooksConfig) :
    Except (List ValidationIssue) (Option Int × TransformState) :=
  let issues := validateHooksRecord file raw.hooks
  if issues = [] then .ok (raw.version, hooksTransform validEvents raw.hooks)
  else .error issues

/-! ## Session metadata store (`hook-system.ts`, not in this slice) -/

/-- Modelled from the spec: the static field-to-event mapping of the
Hook System (`hook-system.ts` is not in this slice). Per §4.3 and the
rename tests, the status field `todoState` maps to the
`StatusStateChange` event; a field with no configured mapping produces
no event. -/
def FIELD_EVENTS (field : String) : Option String :=
  if field = "todoState" then some "StatusStateChange" else none

/-- One event emission on the Event Bus: event name plus the
`{ oldState, newState }` payload (`oldState` is `none` when the field
was previously unset). -/
structure EmittedEvent where
  event : String
  oldState : Option String
  newState : String
deriving DecidableEq, Repr

/-- Per-session metadata: a mapping of field name to value, held as an
association list in insertion order. -/
def SessionMetadata : Type := List (String × String)

/-- The store: a mapping of session id to its metadata. -/
def SessionStore : Type := List (String × SessionMetadata)

/-- Field read on session metadata (first match). -/
def getField (md : List (String × String)) (f : String) : Option String :=
  match md with
  | [] => none
  | (f', v) :: rest => if f' = f then some v else getField rest f

/-- Field write on session metadata: update in place or push at end. -/
def setField (md : List (String × String)) (f v : String) : List (String × String) :=
  match md with
  | [] => [(f, v)]
  | (f', v') :: rest =>
    if f' = f then (f, v) :: rest else (f', v') :: setField rest f v

/-- Session lookup in the store. -/
def getSession (store : List (String × List (String × String))) (sid : String) :
    Option (List (String × String)) :=
  match store with
  | [] => none
  | (s, md) :: rest => if s = sid then some md else getSession rest sid

/-- Session write in the store. -/
def setSession (store : List (String × List (String × String))) (sid : String)
    (md : List (String × String)) : List (String × List (String × String)) :=
  match store with
  | [] => [(sid, md)]
  | (s, md') :: rest =>
    if s = sid then (sid, md) :: rest else (s, md') :: setSession rest sid md

/-- Modelled from the spec: the field-by-field merge-and-diff loop of
`updateSessionMetadata` (§4.3). Each supplied field is compared with
the stored value; only on a genuine change (old ≠ new, including old
unset) is the field written and, when `FIELD_EVENTS` maps it, its event
emitted with payload `{ oldState, newState }`. Returns the merged
metadata and the emissions in field-processing order. -/
def applyUpdates (md : List (String × String)) :
    List (String × String) → List (String × String) × List EmittedEvent
  | [] => (md, [])
  | (f, v) :: rest =>
    let old := getField md f
    if old = some v then
      applyUpdates md rest
    else
      let out := applyUpdates (setField md f v) rest
      match FIELD_EVENTS f with
      | some e => (out.1, ⟨e, old, v⟩ :: out.2)
      | none => out

/-- Modelled from the spec: `HookSystem.updateSessionMetadata`
(`hook-system.ts`, not in this slice). Per §4.3 it fails with a
"session not found" condition for an unregistered session, otherwise
merges the partial update over the stored state, emits an event per
genuinely changed mapped field, and returns the emissions (the returned
event-name list is their `event` projection). -/
def updateSessionMetadata (store : List (String × List (String × String)))
    (sid : String) (upd : List (String × String)) :
    Except String (List (String × List (String × String)) × List EmittedEvent) :=
  match getSession store sid with
  | none => .error "session not found"
  | some md =>
    let out := applyUpdates md upd
    .ok (setSession store sid out.1, out.2)

/-! ## Session title generator (`title-generator.ts`) -/

/-- One content block of an SDK assistant message: only `text` blocks
contribute to the title. -/
inductive ContentBlock
  | text (s : String)
  | otherBlock
deriving DecidableEq, Repr

/-- One message from the SDK `query` stream: only `assistant` messages
are read. -/
inductive SdkMessage
  | assistant (content : List ContentBlock)
  | otherMessage
deriving DecidableEq, Repr

/-- The accumulation loop of `generateSessionTitle`: concatenate the
text blocks of every assistant message, in stream order. -/
def collectTitle (msgs : List SdkMessage) : String :=
  match msgs with
  | [] => ""
  | .assistant content :: rest => collectBlocks content ++ collectTitle rest
  | .otherMessage :: rest => collectTitle rest
where
  collectBlocks : List ContentBlock → String
    | [] => ""
    | .text s :: bs => s ++ collectBlocks bs
    | .otherBlock :: bs => collectBlocks bs

/-- JavaScript `String.prototype.trim`: strip leading and trailing
whitespace from the character sequence. -/
def trimString (s : String) : String :=
  ⟨((s.data.dropWhile Char.isWhitespace).reverse.dropWhile
      Char.isWhitespace).reverse⟩

/-- The acceptance check shared by both title paths: trim, then accept
exactly when non-empty and strictly under 100 characters, else report
failure (`null`). -/
def acceptTitle (raw : String) : Option String :=
  let trimmed := trimString raw
  if 0 < trimmed.length ∧ trimmed.length < 100 then some trimmed else none

/-- `generateSessionTitle` at the collaborator boundary: the SDK
`query` stream either yields messages or throws (`.error`, caught by
the surrounding `try`); the accumulated text is trimmed and validated.
Failure is the value `none`, never an exception. -/
def generateSessionTitle (outcome : Except Unit (List SdkMessage)) : Option String :=
  match outcome with
  | .error _ => none
  | .ok msgs => acceptTitle (collectTitle msgs)

/-- `generateTitleWithOpenAI` at the collaborator boundary: no truthy
auth token, a non-ok / thrown response (`.error`), or absent content
yield `none`; otherwise a truthy content string is trimmed and
validated exactly as the Claude path. -/
def generateTitleWithOpenAI (authToken : Option String)
    (response : Except Unit (Option String)) : Option String :=
  if truthy authToken = false then none
  else
    match response with
    | .error _ => none
    | .ok content =>
      match content with
      | none => none
      | some c => if c = "" then none else acceptTitle c

/-- The matcher-shape violations named by the validation contract: an
empty command, a non-positive timeout, or an empty prompt. -/
def badHookDef : HookDefinition → Bool
  | .command c t =>
    decide (c = "") || (match t with | some n => decide (n ≤ 0) | none => false)
  | .prompt s => decide (s = "")

/-- Concrete matcher from the rename tests: `{ matcher: 'done',
hooks: [{ type: 'command', command: 'echo done' }] }`. -/
def sampleMatcherDone : HookMatcher :=
  { matcher := some "done", hooks := [.command "echo done" none] }

/-- A second concrete matcher for merge scenarios. -/
def sampleMatcherStarted : HookMatcher :=
  { matcher := some "started", hooks := [.command "echo started" none] }

/-- A matcher violating the shape: its only hook has an empty command. -/
def sampleBadMatcher : HookMatcher := { hooks := [.command "" none] }

end CraftAgents

namespace CraftAgents

/-- Record lookup after a JS-object upsert: reading the written key
appends the new matchers after the old, any other key is unaffected. -/
theorem lookupD_upsertAppend {α : Type} (h : List (String × List α)) (k : String)
    (ms : List α) (t : String) :
    lookupD (upsertAppend h k ms) t =
      if k = t then lookupD h t ++ ms else lookupD h t := by
  induction h with
  | nil => by_cases hkt : k = t <;> simp [upsertAppend, lookupD, hkt]
  | cons e rest ih =>
    obtain ⟨k', v⟩ := e
    by_cases hk : k' = k
    · subst hk
      by_cases hkt : k' = t <;> simp [upsertAppend, lookupD, hkt]
    · by_cases ht : k' = t
      · subst ht
        have hkt : ¬k = k' := fun hh => hk hh.symm
        simp [upsertAppend, lookupD, hk, hkt]
      · simp [upsertAppend, lookupD, hk, ht, ih]

/-- Key membership after a JS-object upsert. -/
theorem mem_keys_upsertAppend {α : Type} (h : List (String × List α)) (k t : String)
    (ms : List α) :
    t ∈ (upsertAppend h k ms).map Prod.fst ↔ t ∈ h.map Prod.fst ∨ t = k := by
  induction h with
  | nil =>
    simp only [upsertAppend, List.map_cons, List.map_nil, List.mem_singleton,
      List.not_mem_nil, false_or]
  | cons e rest ih =>
    obtain ⟨k', v⟩ := e
    rw [upsertAppend]
    by_cases hk : k' = k
    · rw [if_pos hk]
      subst hk
      simp only [List.map_cons, List.mem_cons]
      tauto
    · rw [if_neg hk]
      simp only [List.map_cons, List.mem_cons, ih]
      tauto

/-- The only replacement in the Deprecation Table is
`StatusStateChange`. -/
theorem DEPRECATED_EVENTS_some (x r : String) (h : DEPRECATED_EVENTS x = some r) :
    r = "StatusStateChange" := by
  unfold DEPRECATED_EVENTS at h
  by_cases hx : x = "TodoStateChange" <;> simp [hx] at h
  exact h.symm

/-- Effect of one loop iteration on one event's accumulated matchers:
the entry's matchers are appended exactly when the entry's key resolves
to that event. -/
theorem lookupD_hooksStep (V : List String) (acc : TransformState)
    (e : String × List HookMatcher) (t : String) :
    lookupD (hooksStep V acc e).validHooks t =
      lookupD acc.validHooks t ++
        (if resolvesTo V e.1 t then e.2 else []) := by
  by_cases he : e.1 = "TodoStateChange"
  · simp only [hooksStep, resolvesTo, DEPRECATED_EVENTS, he, if_true, ite_true,
      lookupD_upsertAppend]
    by_cases hrt : ("StatusStateChange" : String) = t <;> simp [hrt]
  · simp only [hooksStep, resolvesTo, DEPRECATED_EVENTS, he, ite_false, if_false]
    by_cases hv : e.1 ∈ V
    · simp only [if_pos hv, lookupD_upsertAppend]
      by_cases het : e.1 = t
      · subst het
        simp [hv]
      · simp [het]
    · simp [hv]

/-- Master invariant of the transform loop: each event's accumulated
matcher list is the concatenation, in raw declaration order, of every
raw entry resolving to that event. -/
theorem lookupD_processEntries (V : List String)
    (raw : List (String × List HookMatcher)) (acc : TransformState) (t : String) :
    lookupD (processEntries V acc raw).validHooks t =
      lookupD acc.validHooks t ++
        ((raw.filter (fun e => resolvesTo V e.1 t)).map Prod.snd).flatten := by
  induction raw generalizing acc with
  | nil => simp [processEntries]
  | cons e rest ih =>
    simp only [processEntries, ih, lookupD_hooksStep, List.filter_cons]
    by_cases hr : resolvesTo V e.1 t = true <;>
      simp [hr, List.append_assoc]

/-- Key membership after one loop iteration. -/
theorem mem_keys_hooksStep (V : List String) (acc : TransformState)
    (e : String × List HookMatcher) (t : String) :
    t ∈ (hooksStep V acc e).validHooks.map Prod.fst ↔
      t ∈ acc.validHooks.map Prod.fst ∨ resolvesTo V e.1 t = true := by
  by_cases he : e.1 = "TodoStateChange"
  · rw [show (hooksStep V acc e).validHooks =
        upsertAppend acc.validHooks "StatusStateChange" e.2 by
      simp [hooksStep, DEPRECATED_EVENTS, he]]
    rw [mem_keys_upsertAppend]
    have hres : resolvesTo V e.1 t = true ↔ "StatusStateChange" = t := by
      simp [resolvesTo, DEPRECATED_EVENTS, he]
    rw [hres]
    exact or_congr Iff.rfl eq_comm
  · by_cases hv : e.1 ∈ V
    · rw [show (hooksStep V acc e).validHooks =
          upsertAppend acc.validHooks e.1 e.2 by
        simp [hooksStep, DEPRECATED_EVENTS, he, hv]]
      rw [mem_keys_upsertAppend]
      have hres : resolvesTo V e.1 t = true ↔ e.1 = t := by
        simp [resolvesTo, DEPRECATED_EVENTS, he, hv]
      rw [hres]
      exact or_congr Iff.rfl eq_comm
    · rw [show (hooksStep V acc e).validHooks = acc.validHooks by
        simp [hooksStep, DEPRECATED_EVENTS, he, hv]]
      simp [resolvesTo, DEPRECATED_EVENTS, he, hv]

/-- Key membership of the loop's output: an event appears exactly when
some raw entry resolves to it (or it was already accumulated). -/
theorem mem_keys_processEntries (V : List String)
    (raw : List (String × List HookMatcher)) (acc : TransformState) (t : String) :
    t ∈ (processEntries V acc raw).validHooks.map Prod.fst ↔
      t ∈ acc.validHooks.map Prod.fst ∨
        ∃ e ∈ raw, resolvesTo V e.1 t = true := by
  induction raw generalizing acc with
  | nil => simp [processEntries]
  | cons e rest ih =>
    simp only [processEntries, ih, mem_keys_hooksStep, List.mem_cons]
    constructor
    · rintro ((h | h) | ⟨e', he', hr⟩)
      · exact Or.inl h
      · exact Or.inr ⟨e, Or.inl rfl, h⟩
      · exact Or.inr ⟨e', Or.inr he', hr⟩
    · rintro (h | ⟨e', he' | he', hr⟩)
      · exact Or.inl (Or.inl h)
      · subst he'
        exact Or.inl (Or.inr hr)
      · exact Or.inr ⟨e', he', hr⟩

/-- Unknown keys recorded by one loop iteration. -/
theorem invalidEvents_hooksStep (V : List String) (acc : TransformState)
    (e : String × List HookMatcher) :
    (hooksStep V acc e).invalidEvents =
      acc.invalidEvents ++
        (if (DEPRECATED_EVENTS e.1).isNone && !(decide (e.1 ∈ V)) then [e.1] else []) := by
  by_cases he : e.1 = "TodoStateChange"
  · simp [hooksStep, DEPRECATED_EVENTS, he]
  · by_cases hv : e.1 ∈ V <;> simp [hooksStep, DEPRECATED_EVENTS, he, hv]

/-- The loop records, in order, exactly the keys that are neither
deprecated nor valid. -/
theorem invalidEvents_processEntries (V : List String)
    (raw : List (String × List HookMatcher)) (acc : TransformState) :
    (processEntries V acc raw).invalidEvents =
      acc.invalidEvents ++
        (raw.map Prod.fst).filter
          (fun k => (DEPRECATED_EVENTS k).isNone && !(decide (k ∈ V))) := by
  induction raw generalizing acc with
  | nil => simp [processEntries]
  | cons e rest ih =>
    simp only [processEntries, ih, invalidEvents_hooksStep, List.map_cons,
      List.filter_cons]
    by_cases hb : ((DEPRECATED_EVENTS e.1).isNone && !(decide (e.1 ∈ V))) = true <;>
      simp [hb, List.append_assoc]

/-- The loop itself emits only deprecation warnings; the unknown-events
warnings among its output are those already accumulated. -/
theorem warnings_filter_processEntries (V : List String)
    (raw : List (String × List HookMatcher)) (acc : TransformState) :
    (processEntries V acc raw).warnings.filter isUnknownWarning =
      acc.warnings.filter isUnknownWarning := by
  induction raw generalizing acc with
  | nil => simp [processEntries]
  | cons e rest ih =>
    rw [processEntries, ih]
    by_cases he : e.1 = "TodoStateChange"
    · simp [hooksStep, DEPRECATED_EVENTS, he, List.filter_append, isUnknownWarning]
    · by_cases hv : e.1 ∈ V <;>
        simp [hooksStep, DEPRECATED_EVENTS, he, hv]

/-- The final unknown-warning step never touches `validHooks`. -/
theorem hooksTransform_validHooks (V : List String)
    (raw : List (String × List HookMatcher)) :
    (hooksTransform V raw).validHooks =
      (processEntries V ⟨[], [], []⟩ raw).validHooks := by
  rw [hooksTransform]
  by_cases h : (processEntries V ⟨[], [], []⟩ raw).invalidEvents = [] <;> simp [h]

/-- The transform's invalid-events record, from an empty accumulator. -/
theorem hooksTransform_invalidEvents (V : List String)
    (raw : List (String × List HookMatcher)) :
    (hooksTransform V raw).invalidEvents =
      (raw.map Prod.fst).filter
        (fun k => (DEPRECATED_EVENTS k).isNone && !(decide (k ∈ V))) := by
  have key : ∀ st : TransformState,
      (if st.invalidEvents = [] then st
       else { st with
              warnings := st.warnings ++
                [HooksWarning.unknownEvents st.invalidEvents] }).invalidEvents
        = st.invalidEvents := fun st => by split <;> rfl
  calc (hooksTransform V raw).invalidEvents
      = (processEntries V ⟨[], [], []⟩ raw).invalidEvents :=
        key (processEntries V ⟨[], [], []⟩ raw)
    _ = (raw.map Prod.fst).filter
          (fun k => (DEPRECATED_EVENTS k).isNone && !(decide (k ∈ V))) := by
        simpa using invalidEvents_processEntries V raw ⟨[], [], []⟩

end CraftAgents

namespace CraftAgents

/-- Claim C4: with billing type other than `'bedrock'` and a (truthy) custom
base URL, the resolver sets `ANTHROPIC_BASE_URL` to that URL and
`ANTHROPIC_API_KEY` to the configured key — or the placeholder
`"not-needed"` when none is present — and deletes
`CLAUDE_CODE_OAUTH_TOKEN`, regardless of any OAuth token in the input. -/
theorem resolveAuthEnv_customBaseUrl (input : AuthEnvInput)
    (hb : input.billing.type ≠ some "bedrock")
    (hc : truthy input.customBaseUrl = true) :
    resolveAuthEnv input =
      { set := [("ANTHROPIC_BASE_URL", input.customBaseUrl.getD ""),
                ("ANTHROPIC_API_KEY",
                  if truthy input.billing.apiKey then input.billing.apiKey.getD ""
                  else "not-needed")],
        delete := ["CLAUDE_CODE_OAUTH_TOKEN"] } := by
  unfold resolveAuthEnv
  rw [if_neg hb, if_pos hc]

/-- Witness for C4: the concrete custom-provider scenario of the spec
(§8, scenario 1). -/
theorem resolveAuthEnv_customBaseUrl_witness :
    resolveAuthEnv
      { billing := { type := some "api_key", hasCredentials := true,
                     apiKey := some "sk-test-key", claudeOAuthToken := none },
        customBaseUrl := some "https://openrouter.ai/api" } =
      { set := [("ANTHROPIC_BASE_URL", "https://openrouter.ai/api"),
                ("ANTHROPIC_API_KEY", "sk-test-key")],
        delete := ["CLAUDE_CODE_OAUTH_TOKEN"] } := by
  rw [resolveAuthEnv_customBaseUrl _ (by decide) (by decide)]
  rfl

/-- Claim C5: on every input, no environment-variable name is both a key of
the result's `set` record and an element of its `delete` list. -/
theorem resolveAuthEnv_set_delete_disjoint (input : AuthEnvInput) :
    ∀ k ∈ (resolveAuthEnv input).set.map Prod.fst,
      k ∉ (resolveAuthEnv input).delete := by
  unfold resolveAuthEnv
  split
  · simp
  · split
    · simp
    · split
      · simp
      · split
        · simp
        · simp

/-- Witness for C5: at the custom-provider input, the set key
`ANTHROPIC_BASE_URL` is not among the deleted variables. -/
theorem resolveAuthEnv_set_delete_disjoint_witness :
    "ANTHROPIC_BASE_URL" ∉
      (resolveAuthEnv
        { billing := { type := some "api_key", hasCredentials := true,
                       apiKey := some "sk-test-key", claudeOAuthToken := none },
          customBaseUrl := some "https://openrouter.ai/api" }).delete :=
  resolveAuthEnv_set_delete_disjoint
    { billing := { type := some "api_key", hasCredentials := true,
                   apiKey := some "sk-test-key", claudeOAuthToken := none },
      customBaseUrl := some "https://openrouter.ai/api" }
    "ANTHROPIC_BASE_URL" (by decide)

/-- Claim C6: with billing type other than `'bedrock'`, no (truthy) custom
base URL, no usable OAuth token, and no (truthy) API key, the resolver
returns empty `set`/`delete` plus the error string
`"No authentication configured"` — an error value, not a thrown
exception (the function is total). -/
theorem resolveAuthEnv_noAuth (input : AuthEnvInput)
    (hb : input.billing.type ≠ some "bedrock")
    (hc : truthy input.customBaseUrl = false)
    (ho : ¬(input.billing.type = some "oauth_token" ∧
            truthy input.billing.claudeOAuthToken = true))
    (ha : truthy input.billing.apiKey = false) :
    resolveAuthEnv input =
      { set := [], delete := [], error := some "No authentication configured" } := by
  unfold resolveAuthEnv
  rw [if_neg hb, if_neg (by simp [hc]), if_neg (by simpa using ho),
    if_neg (by simp [ha])]

/-- Witness for C6: the fully unconfigured input of the spec's test
suite. -/
theorem resolveAuthEnv_noAuth_witness :
    resolveAuthEnv
      { billing := { type := none, hasCredentials := false,
                     apiKey := none, claudeOAuthToken := none },
        customBaseUrl := none } =
      { set := [], delete := [], error := some "No authentication configured" } := by
  rw [resolveAuthEnv_noAuth _ (by decide) (by decide) (by decide) (by decide)]

/-- Claim C10 (noninterference): `billing.hasCredentials` is never read, so
two inputs differing only in that flag produce identical results. -/
theorem resolveAuthEnv_ignores_hasCredentials
    (t : Option String) (h₁ h₂ : Bool) (ak tok cb : Option String) :
    resolveAuthEnv
      { billing := { type := t, hasCredentials := h₁,
                     apiKey := ak, claudeOAuthToken := tok },
        customBaseUrl := cb } =
    resolveAuthEnv
      { billing := { type := t, hasCredentials := h₂,
                     apiKey := ak, claudeOAuthToken := tok },
        customBaseUrl := cb } := rfl

/-- The unknown-events warnings of the whole transform: exactly one,
listing all unknown keys in declaration order, when any key was
unknown; none otherwise. -/
theorem hooksTransform_warnings_filter (V : List String)
    (raw : List (String × List HookMatcher)) :
    (hooksTransform V raw).warnings.filter isUnknownWarning =
      (if (raw.map Prod.fst).filter
            (fun k => (DEPRECATED_EVENTS k).isNone && !(decide (k ∈ V))) = [] then []
       else [HooksWarning.unknownEvents
              ((raw.map Prod.fst).filter
                (fun k => (DEPRECATED_EVENTS k).isNone && !(decide (k ∈ V))))]) := by
  have hst : (processEntries V ⟨[], [], []⟩ raw).invalidEvents =
      (raw.map Prod.fst).filter
        (fun k => (DEPRECATED_EVENTS k).isNone && !(decide (k ∈ V))) := by
    simpa using invalidEvents_processEntries V raw ⟨[], [], []⟩
  have hw : (processEntries V ⟨[], [], []⟩ raw).warnings.filter isUnknownWarning = [] := by
    simpa using warnings_filter_processEntries V raw ⟨[], [], []⟩
  rw [← hst]
  rw [hooksTransform]
  by_cases h : (processEntries V ⟨[], [], []⟩ raw).invalidEvents = []
  · simp [h, hw]
  · simp [h, hw, List.filter_append, isUnknownWarning]

/-- Claim C1: a raw configuration whose only top-level key is the legacy
`TodoStateChange` validates to a configuration holding those matchers,
unchanged and in order, under `StatusStateChange`, while
`getMatchersForEvent` on `TodoStateChange` returns the empty list. -/
theorem hooksTransform_legacy_only (V : List String) (ms : List HookMatcher) :
    (hooksTransform V [("TodoStateChange", ms)]).validHooks =
        [("StatusStateChange", ms)] ∧
    getMatchersForEvent (hooksTransform V [("TodoStateChange", ms)]).validHooks
        "StatusStateChange" = ms ∧
    getMatchersForEvent (hooksTransform V [("TodoStateChange", ms)]).validHooks
        "TodoStateChange" = [] := by
  refine ⟨?_, ?_, ?_⟩ <;>
    simp [hooksTransform, processEntries, hooksStep, DEPRECATED_EVENTS,
      upsertAppend, getMatchersForEvent, lookupD]

/-- Filtering a unique-keyed record for one key yields exactly that
key's entry. -/
theorem filter_keyEq_singleton {α : Type} (k : String) (X : α)
    (raw : List (String × α)) (hmem : (k, X) ∈ raw)
    (hnd : (raw.map Prod.fst).Nodup) :
    raw.filter (fun e => e.1 == k) = [(k, X)] := by
  induction raw with
  | nil => simp at hmem
  | cons e rest ih =>
    simp only [List.map_cons, List.nodup_cons] at hnd
    rcases List.mem_cons.mp hmem with h0 | h0
    · have he : e = (k, X) := h0.symm
      subst he
      rw [List.filter_cons]
      have hrest : rest.filter (fun e => e.1 == k) = [] := by
        apply List.filter_eq_nil_iff.mpr
        intro e' he'
        simp only [beq_eq_false_iff_ne, ne_eq, Bool.not_eq_true, beq_iff_eq]
        intro hk
        have hmem' : e'.1 ∈ rest.map Prod.fst := List.mem_map_of_mem Prod.fst he'
        rw [hk] at hmem'
        exact hnd.1 hmem'
      simp [hrest]
    · have hek : ¬e.1 = k := by
        intro hk
        exact absurd (List.mem_map_of_mem Prod.fst h0) (hk ▸ hnd.1)
      rw [List.filter_cons]
      have hpred : (e.1 == k) = false := by simp [hek]
      rw [hpred, if_neg Bool.false_ne_true]
      exact ih h0 hnd.2

/-- Filtering a unique-keyed record for two distinct keys, both
present, yields exactly their two entries, in record order. -/
theorem filter_two_keys {α : Type} (T S : String) (A B : α) (hTS : T ≠ S) :
    ∀ raw : List (String × α), (raw.map Prod.fst).Nodup →
      (T, A) ∈ raw → (S, B) ∈ raw →
      raw.filter (fun e => e.1 == T || e.1 == S) = [(T, A), (S, B)] ∨
      raw.filter (fun e => e.1 == T || e.1 == S) = [(S, B), (T, A)] := by
  intro raw
  induction raw with
  | nil => intro _ hA; simp at hA
  | cons e rest ih =>
    intro hnd hA hB
    simp only [List.map_cons, List.nodup_cons] at hnd
    by_cases hT : e.1 = T
    · have heA : e = (T, A) := by
        rcases List.mem_cons.mp hA with h0 | h0
        · exact h0.symm
        · exact absurd (List.mem_map_of_mem Prod.fst h0) (hT ▸ hnd.1)
      have hBrest : (S, B) ∈ rest := by
        rcases List.mem_cons.mp hB with h0 | h0
        · have h1 : S = T := congrArg Prod.fst (h0.trans heA)
          exact absurd h1 (Ne.symm hTS)
        · exact h0
      subst heA
      rw [List.filter_cons]
      have hcong : rest.filter (fun e => e.1 == T || e.1 == S) =
          rest.filter (fun e => e.1 == S) := by
        apply List.filter_congr
        intro e' he'
        have hne : ¬e'.1 = T := by
          intro hk
          have hmem' : e'.1 ∈ rest.map Prod.fst := List.mem_map_of_mem Prod.fst he'
          rw [hk] at hmem'
          exact hnd.1 hmem'
        simp [hne]
      have hpred : ((T, A).1 == T || (T, A).1 == S) = true := by simp
      rw [hpred, if_pos rfl]
      left
      rw [hcong, filter_keyEq_singleton S B rest hBrest hnd.2]
    · by_cases hS : e.1 = S
      · have heB : e = (S, B) := by
          rcases List.mem_cons.mp hB with h0 | h0
          · exact h0.symm
          · exact absurd (List.mem_map_of_mem Prod.fst h0) (hS ▸ hnd.1)
        have hArest : (T, A) ∈ rest := by
          rcases List.mem_cons.mp hA with h0 | h0
          · have h1 : T = S := congrArg Prod.fst (h0.trans heB)
            exact absurd h1 hTS
          · exact h0
        subst heB
        rw [List.filter_cons]
        have hcong : rest.filter (fun e => e.1 == T || e.1 == S) =
            rest.filter (fun e => e.1 == T) := by
          apply List.filter_congr
          intro e' he'
          have hne : ¬e'.1 = S := by
            intro hk
            have hmem' : e'.1 ∈ rest.map Prod.fst := List.mem_map_of_mem Prod.fst he'
            rw [hk] at hmem'
            exact hnd.1 hmem'
          simp [hne]
        have hpred : ((S, B).1 == T || (S, B).1 == S) = true := by simp
        rw [hpred, if_pos rfl]
        right
        rw [hcong, filter_keyEq_singleton T A rest hArest hnd.2]
      · have hArest : (T, A) ∈ rest := by
          rcases List.mem_cons.mp hA with h0 | h0
          · exact absurd (congrArg Prod.fst h0).symm hT
          · exact h0
        have hBrest : (S, B) ∈ rest := by
          rcases List.mem_cons.mp hB with h0 | h0
          · exact absurd (congrArg Prod.fst h0).symm hS
          · exact h0
        rw [List.filter_cons]
        have hpred : (e.1 == T || e.1 == S) = false := by simp [hT, hS]
        rw [hpred, if_neg Bool.false_ne_true]
        exact ih hnd.2 hArest hBrest

/-- When `StatusStateChange` is a valid event, a raw key contributes
to it exactly when it is the legacy or the current status-change
name. -/
theorem resolvesTo_statusStateChange (V : List String)
    (hv : "StatusStateChange" ∈ V) (k : String) :
    resolvesTo V k "StatusStateChange" =
      (k == "TodoStateChange" || k == "StatusStateChange") := by
  by_cases hT : k = "TodoStateChange"
  · simp [resolvesTo, DEPRECATED_EVENTS, hT]
  · by_cases hS : k = "StatusStateChange"
    · simp [resolvesTo, DEPRECATED_EVENTS, hT, hS, hv]
    · have h1 : (k == "TodoStateChange") = false := by simp [hT]
      have h2 : (k == "StatusStateChange") = false := by simp [hS]
      simp [resolvesTo, DEPRECATED_EVENTS, hT, h1, h2]

/-- Claim C2: every raw configuration containing both the legacy
`TodoStateChange` (matchers `A`) and the current `StatusStateChange`
(matchers `B`), possibly among other keys, validates so that the list
for `StatusStateChange` is the concatenation, first-declared-first, of
all entries declared under those two keys: it equals `A ++ B` or
`B ++ A` according to which key appears first, has length
`|A| + |B|`, and contains every matcher of `A` and of `B`. Keys of the
raw record are distinct, as JS object keys are. -/
theorem hooksTransform_legacy_merge (V : List String)
    (raw : List (String × List HookMatcher)) (A B : List HookMatcher)
    (hv : "StatusStateChange" ∈ V) (hnd : (raw.map Prod.fst).Nodup)
    (hA : ("TodoStateChange", A) ∈ raw) (hB : ("StatusStateChange", B) ∈ raw) :
    getMatchersForEvent (hooksTransform V raw).validHooks "StatusStateChange" =
      ((raw.filter (fun e =>
          e.1 == "TodoStateChange" || e.1 == "StatusStateChange")).map
        Prod.snd).flatten ∧
    (getMatchersForEvent (hooksTransform V raw).validHooks "StatusStateChange" =
        A ++ B ∨
     getMatchersForEvent (hooksTransform V raw).validHooks "StatusStateChange" =
        B ++ A) ∧
    (getMatchersForEvent (hooksTransform V raw).validHooks
        "StatusStateChange").length = A.length + B.length ∧
    (∀ m ∈ A, m ∈ getMatchersForEvent (hooksTransform V raw).validHooks
        "StatusStateChange") ∧
    (∀ m ∈ B, m ∈ getMatchersForEvent (hooksTransform V raw).validHooks
        "StatusStateChange") := by
  have h0 : getMatchersForEvent (hooksTransform V raw).validHooks
      "StatusStateChange" =
      ((raw.filter (fun e =>
          e.1 == "TodoStateChange" || e.1 == "StatusStateChange")).map
        Prod.snd).flatten := by
    rw [getMatchersForEvent, hooksTransform_validHooks, lookupD_processEntries]
    rw [List.filter_congr
      (fun e _ => resolvesTo_statusStateChange V hv e.1)]
    simp [lookupD]
  have hTS : ("TodoStateChange" : String) ≠ "StatusStateChange" := by decide
  have h2 := filter_two_keys "TodoStateChange" "StatusStateChange" A B hTS
    raw hnd hA hB
  have hL : getMatchersForEvent (hooksTransform V raw).validHooks
      "StatusStateChange" = A ++ B ∨
      getMatchersForEvent (hooksTransform V raw).validHooks
        "StatusStateChange" = B ++ A := by
    rcases h2 with h2 | h2
    · left
      rw [h0, h2]
      simp
    · right
      rw [h0, h2]
      simp
  refine ⟨h0, hL, ?_, ?_, ?_⟩
  · rcases hL with h | h
    · rw [h]
      simp [List.length_append]
    · rw [h]
      simp [List.length_append]
      omega
  · intro m hm
    rcases hL with h | h <;> rw [h] <;> simp [hm]
  · intro m hm
    rcases hL with h | h <;> rw [h] <;> simp [hm]

/-- Witness for C2: both status keys amid a third, unknown key, at the
concrete event list `["StatusStateChange"]`. -/
theorem hooksTransform_legacy_merge_witness :
    (getMatchersForEvent
        (hooksTransform ["StatusStateChange"]
          [("TodoStateChange", [sampleMatcherDone]),
           ("Bogus", [sampleMatcherStarted]),
           ("StatusStateChange", [sampleMatcherStarted])]).validHooks
        "StatusStateChange").length =
      ([sampleMatcherDone] : List HookMatcher).length +
        ([sampleMatcherStarted] : List HookMatcher).length :=
  (hooksTransform_legacy_merge ["StatusStateChange"]
    [("TodoStateChange", [sampleMatcherDone]),
     ("Bogus", [sampleMatcherStarted]),
     ("StatusStateChange", [sampleMatcherStarted])]
    [sampleMatcherDone] [sampleMatcherStarted]
    (by decide) (by decide) (by decide) (by decide)).2.2.1

/-- Claim C7: every top-level key that is neither deprecated nor a valid
event is absent from the validated mapping and its matchers dropped;
the transform emits exactly one warning listing all unknown keys (and
none when there are none); and no matcher under a deprecated or valid
key is lost. -/
theorem hooksTransform_unknown_keys (V : List String)
    (raw : List (String × List HookMatcher)) (hv : "StatusStateChange" ∈ V) :
    (∀ k ∈ raw.map Prod.fst, DEPRECATED_EVENTS k = none → k ∉ V →
      k ∉ (hooksTransform V raw).validHooks.map Prod.fst ∧
      getMatchersForEvent (hooksTransform V raw).validHooks k = []) ∧
    ((hooksTransform V raw).warnings.filter isUnknownWarning =
      (if (raw.map Prod.fst).filter
            (fun k => (DEPRECATED_EVENTS k).isNone && !(decide (k ∈ V))) = [] then []
       else [HooksWarning.unknownEvents
              ((raw.map Prod.fst).filter
                (fun k => (DEPRECATED_EVENTS k).isNone && !(decide (k ∈ V))))])) ∧
    (∀ e ∈ raw, ((DEPRECATED_EVENTS e.1).isSome ∨ e.1 ∈ V) →
      ∀ m ∈ e.2, ∃ t,
        m ∈ getMatchersForEvent (hooksTransform V raw).validHooks t) := by
  refine ⟨?_, hooksTransform_warnings_filter V raw, ?_⟩
  · intro k hk hdep hnv
    have hno : ∀ e ∈ raw, ¬resolvesTo V e.1 k = true := by
      intro e he hr
      by_cases hdE : e.1 = "TodoStateChange"
      · have hk2 : "StatusStateChange" = k := by
          simpa [resolvesTo, DEPRECATED_EVENTS, hdE] using hr
        exact hnv (hk2 ▸ hv)
      · have h2 : e.1 = k ∧ e.1 ∈ V := by
          simpa [resolvesTo, DEPRECATED_EVENTS, hdE] using hr
        exact hnv (h2.1 ▸ h2.2)
    constructor
    · intro hmem2
      rw [hooksTransform_validHooks, mem_keys_processEntries] at hmem2
      rcases hmem2 with h0 | ⟨e, he, hr⟩
      · simp at h0
      · exact hno e he hr
    · rw [getMatchersForEvent, hooksTransform_validHooks, lookupD_processEntries]
      have hfilter : raw.filter (fun e => resolvesTo V e.1 k) = [] :=
        List.filter_eq_nil_iff.mpr (fun e he => by simpa using hno e he)
      simp [hfilter, lookupD]
  · intro e he hknown m hm
    have hres : resolvesTo V e.1 ((DEPRECATED_EVENTS e.1).getD e.1) = true := by
      by_cases hdE : e.1 = "TodoStateChange"
      · simp [resolvesTo, DEPRECATED_EVENTS, hdE]
      · have hV : e.1 ∈ V := by
          rcases hknown with hs | hV
          · rw [show DEPRECATED_EVENTS e.1 = none by
              simp [DEPRECATED_EVENTS, hdE]] at hs
            simp at hs
          · exact hV
        simp [resolvesTo, DEPRECATED_EVENTS, hdE, hV]
    refine ⟨(DEPRECATED_EVENTS e.1).getD e.1, ?_⟩
    rw [getMatchersForEvent, hooksTransform_validHooks, lookupD_processEntries]
    have hmem3 : m ∈ ((raw.filter
        (fun e' => resolvesTo V e'.1 ((DEPRECATED_EVENTS e.1).getD e.1))).map
          Prod.snd).flatten := by
      rw [List.mem_flatten]
      exact ⟨e.2, List.mem_map_of_mem _ (List.mem_filter.mpr ⟨he, hres⟩), hm⟩
    simpa [lookupD] using hmem3

/-- Witness for C7: an unknown key `Bogus` alongside a deprecated key,
at the concrete event list `["StatusStateChange"]`. -/
theorem hooksTransform_unknown_keys_witness :
    "Bogus" ∉ (hooksTransform ["StatusStateChange"]
        [("Bogus", [sampleMatcherStarted]),
         ("TodoStateChange", [sampleMatcherDone])]).validHooks.map Prod.fst ∧
    (hooksTransform ["StatusStateChange"]
        [("Bogus", [sampleMatcherStarted]),
         ("TodoStateChange", [sampleMatcherDone])]).warnings.filter isUnknownWarning =
      [HooksWarning.unknownEvents ["Bogus"]] := by
  have h := hooksTransform_unknown_keys ["StatusStateChange"]
    [("Bogus", [sampleMatcherStarted]), ("TodoStateChange", [sampleMatcherDone])]
    (by decide)
  refine ⟨(h.1 "Bogus" (by decide) (by decide) (by decide)).1, ?_⟩
  rw [h.2.1]
  decide

/-- A hook definition violating its variant's constraints always
yields at least one issue. -/
theorem validateHookDefinition_ne_nil (file p : String) (d : HookDefinition)
    (h : badHookDef d = true) : validateHookDefinition file p d ≠ [] := by
  cases d with
  | command c t =>
    simp only [badHookDef, Bool.or_eq_true, decide_eq_true_eq] at h
    rcases h with hc | ht
    · subst hc
      simp [validateHookDefinition]
    · cases t with
      | none => simp at ht
      | some n =>
        simp only [decide_eq_true_eq] at ht
        simp [validateHookDefinition, not_lt.mpr ht]
  | prompt s =>
    simp only [badHookDef, decide_eq_true_eq] at h
    subst h
    simp [validateHookDefinition]

/-- A definition array containing a violating definition always yields
at least one issue, wherever indexing starts. -/
theorem validateHookDefinitions_ne_nil (file p : String) (ds : List HookDefinition)
    (d : HookDefinition) (h : badHookDef d = true) :
    d ∈ ds → ∀ i, validateHookDefinitions file p i ds ≠ [] := by
  induction ds with
  | nil => intro hd; simp at hd
  | cons d0 rest ih =>
    intro hd i heq
    rw [validateHookDefinitions] at heq
    obtain ⟨h1, h2⟩ := List.append_eq_nil.mp heq
    rcases List.mem_cons.mp hd with h0 | h0
    · subst h0
      exact validateHookDefinition_ne_nil file _ _ h h1
    · exact ih h0 (i + 1) h2

/-- A matcher violating the shape — an empty `hooks` array, or a
violating definition within it — always yields at least one issue. -/
theorem validateHookMatcher_ne_nil (file p : String) (m : HookMatcher)
    (h : m.hooks = [] ∨ ∃ d ∈ m.hooks, badHookDef d = true) :
    validateHookMatcher file p m ≠ [] := by
  intro heq
  unfold validateHookMatcher at heq
  obtain ⟨hAB, hC⟩ := List.append_eq_nil.mp heq
  obtain ⟨hA, hB⟩ := List.append_eq_nil.mp hAB
  rcases h with hnil | ⟨d, hd, hbad⟩
  · rw [hnil] at hB
    simp at hB
  · exact validateHookDefinitions_ne_nil file _ m.hooks d hbad hd 0 hC

/-- A matcher array containing a violating matcher always yields at
least one issue. -/
theorem validateHookMatchers_ne_nil (file p : String) (ms : List HookMatcher)
    (m : HookMatcher)
    (h : m.hooks = [] ∨ ∃ d ∈ m.hooks, badHookDef d = true) :
    m ∈ ms → ∀ i, validateHookMatchers file p i ms ≠ [] := by
  induction ms with
  | nil => intro hm; simp at hm
  | cons m0 rest ih =>
    intro hm i heq
    rw [validateHookMatchers] at heq
    obtain ⟨h1, h2⟩ := List.append_eq_nil.mp heq
    rcases List.mem_cons.mp hm with h0 | h0
    · subst h0
      exact validateHookMatcher_ne_nil file _ _ h h1
    · exact ih h0 (i + 1) h2

/-- A hooks record containing a violating matcher always yields at
least one issue. -/
theorem validateHooksRecord_ne_nil (file : String)
    (hooks : List (String × List HookMatcher)) (k : String)
    (ms : List HookMatcher) (m : HookMatcher)
    (h : m.hooks = [] ∨ ∃ d ∈ m.hooks, badHookDef d = true) :
    (k, ms) ∈ hooks → m ∈ ms → validateHooksRecord file hooks ≠ [] := by
  induction hooks with
  | nil => intro h1; simp at h1
  | cons e rest ih =>
    intro h1 h2 heq
    rw [validateHooksRecord] at heq
    obtain ⟨hA, hB⟩ := List.append_eq_nil.mp heq
    rcases List.mem_cons.mp h1 with h0 | h0
    · have h0' : e = (k, ms) := h0.symm
      subst h0'
      exact validateHookMatchers_ne_nil file _ ms m h h2 0 hA
    · exact ih h0 h2 hB

/-- Every issue a hook definition produces carries the source file and
severity `error`. -/
theorem issues_validateHookDefinition (file p : String) (d : HookDefinition) :
    ∀ i ∈ validateHookDefinition file p d, i.file = file ∧ i.severity = "error" := by
  cases d with
  | command c t =>
    intro i hi
    simp only [validateHookDefinition] at hi
    rcases List.mem_append.mp hi with h | h
    · split at h <;> simp_all
    · cases t with
      | none => simp at h
      | some n => split at h <;> simp_all
  | prompt s =>
    intro i hi
    simp only [validateHookDefinition] at hi
    split at hi <;> simp_all

/-- Every issue a definition array produces carries the source file and
severity `error`. -/
theorem issues_validateHookDefinitions (file p : String) (ds : List HookDefinition) :
    ∀ idx, ∀ i ∈ validateHookDefinitions file p idx ds,
      i.file = file ∧ i.severity = "error" := by
  induction ds with
  | nil => intro idx i hi; simp [validateHookDefinitions] at hi
  | cons d rest ih =>
    intro idx i hi
    rw [validateHookDefinitions] at hi
    rcases List.mem_append.mp hi with h | h
    · exact issues_validateHookDefinition file _ d i h
    · exact ih (idx + 1) i h

/-- Every issue a matcher produces carries the source file and
severity `error`. -/
theorem issues_validateHookMatcher (file p : String) (m : HookMatcher) :
    ∀ i ∈ validateHookMatcher file p m, i.file = file ∧ i.severity = "error" := by
  intro i hi
  unfold validateHookMatcher at hi
  rcases List.mem_append.mp hi with h | h
  · rcases List.mem_append.mp h with h2 | h2
    · cases hpm : m.permissionMode with
      | none => simp only [hpm] at h2; simp at h2
      | some pm =>
        simp only [hpm] at h2
        split at h2 <;> simp_all
    · split at h2 <;> simp_all
  · exact issues_validateHookDefinitions file _ m.hooks 0 i h

/-- Every issue a matcher array produces carries the source file and
severity `error`. -/
theorem issues_validateHookMatchers (file p : String) (ms : List HookMatcher) :
    ∀ idx, ∀ i ∈ validateHookMatchers file p idx ms,
      i.file = file ∧ i.severity = "error" := by
  induction ms with
  | nil => intro idx i hi; simp [validateHookMatchers] at hi
  | cons m rest ih =>
    intro idx i hi
    rw [validateHookMatchers] at hi
    rcases List.mem_append.mp hi with h | h
    · exact issues_validateHookMatcher file _ m i h
    · exact ih (idx + 1) i h

/-- Every issue the whole record produces carries the source file and
severity `error`. -/
theorem issues_validateHooksRecord (file : String)
    (hooks : List (String × List HookMatcher)) :
    ∀ i ∈ validateHooksRecord file hooks,
      i.file = file ∧ i.severity = "error" := by
  induction hooks with
  | nil => intro i hi; simp [validateHooksRecord] at hi
  | cons e rest ih =>
    intro i hi
    rw [validateHooksRecord] at hi
    rcases List.mem_append.mp hi with h | h
    · exact issues_validateHookMatchers file _ _ 0 i h
    · exact ih i h

/-- Claim C8: a raw configuration containing a matcher that violates the
`HookMatcher` shape (empty command or prompt, non-positive timeout, or
an empty `hooks` array) fails validation of the whole file: the parse
returns the structured issue list — nonempty, every issue carrying
file, dotted path, message, and severity `error` — and no validated
configuration. -/
theorem parseHooksConfig_invalid_fails (V : List String) (file : String)
    (raw : RawHooksConfig) (k : String) (ms : List HookMatcher) (m : HookMatcher)
    (hk : (k, ms) ∈ raw.hooks) (hm : m ∈ ms)
    (hbad : m.hooks = [] ∨ ∃ d ∈ m.hooks, badHookDef d = true) :
    parseHooksConfig V file raw = .error (validateHooksRecord file raw.hooks) ∧
    validateHooksRecord file raw.hooks ≠ [] ∧
    ∀ i ∈ validateHooksRecord file raw.hooks,
      i.file = file ∧ i.severity = "error" := by
  have hne : validateHooksRecord file raw.hooks ≠ [] :=
    validateHooksRecord_ne_nil file raw.hooks k ms m hbad hk hm
  refine ⟨?_, hne, issues_validateHooksRecord file raw.hooks⟩
  simp only [parseHooksConfig]
  rw [if_neg hne]

/-- Witness for C8: a config whose only matcher holds an
empty-command hook fails the parse with a nonempty issue list. -/
theorem parseHooksConfig_invalid_fails_witness :
    parseHooksConfig ["StatusStateChange"] "hooks.json"
        { hooks := [("StatusStateChange", [sampleBadMatcher])] } =
      .error (validateHooksRecord "hooks.json"
        [("StatusStateChange", [sampleBadMatcher])]) ∧
    validateHooksRecord "hooks.json"
        [("StatusStateChange", [sampleBadMatcher])] ≠ [] := by
  have h := parseHooksConfig_invalid_fails ["StatusStateChange"] "hooks.json"
    { hooks := [("StatusStateChange", [sampleBadMatcher])] }
    "StatusStateChange" [sampleBadMatcher] sampleBadMatcher
    (by decide) (by decide)
    (Or.inr ⟨.command "" none, by decide, by decide⟩)
  exact ⟨h.1, h.2.1⟩

/-- Writing one field leaves every other field's value unchanged. -/
theorem getField_setField_ne (md : List (String × String)) (f g v : String)
    (h : g ≠ f) : getField (setField md f v) g = getField md g := by
  induction md with
  | nil => simp [setField, getField, Ne.symm h]
  | cons e rest ih =>
    obtain ⟨f', v'⟩ := e
    by_cases hf : f' = f
    · subst hf
      simp [setField, getField, Ne.symm h]
    · by_cases hg : f' = g
      · subst hg
        simp [setField, getField, hf]
      · simp [setField, getField, hf, hg, ih]

/-- An update whose every field equals its stored value diffs to the
unchanged metadata and no emissions. -/
theorem applyUpdates_no_change (md : List (String × String))
    (upd : List (String × String))
    (h : ∀ fv ∈ upd, getField md fv.1 = some fv.2) :
    applyUpdates md upd = (md, []) := by
  induction upd with
  | nil => rfl
  | cons fv rest ih =>
    obtain ⟨f, v⟩ := fv
    have hf : getField md f = some v := h (f, v) (List.mem_cons_self _ _)
    simp only [applyUpdates, hf, if_pos]
    exact ih (fun fv hfv => h fv (List.mem_cons_of_mem _ hfv))

/-- Every genuinely changed field with a mapped event contributes that
event, with the before and after values as payload, to the diff's
emissions. -/
theorem applyUpdates_changed_mem (md : List (String × String))
    (upd : List (String × String)) (hnd : (upd.map Prod.fst).Nodup) :
    ∀ f v, (f, v) ∈ upd → getField md f ≠ some v →
      ∀ ev, FIELD_EVENTS f = some ev →
        (⟨ev, getField md f, v⟩ : EmittedEvent) ∈ (applyUpdates md upd).2 := by
  induction upd generalizing md with
  | nil => intro f v h; simp at h
  | cons fv rest ih =>
    obtain ⟨f0, v0⟩ := fv
    simp only [List.map_cons, List.nodup_cons] at hnd
    intro f v hmem hch ev hev
    rcases List.mem_cons.mp hmem with h0 | h0
    · cases h0
      simp only [applyUpdates, if_neg hch, hev]
      exact List.mem_cons_self _ _
    · have hne : f ≠ f0 := by
        intro hEq
        subst hEq
        exact hnd.1 (List.mem_map_of_mem Prod.fst h0)
      by_cases hch0 : getField md f0 = some v0
      · simp only [applyUpdates, hch0, if_pos]
        exact ih md hnd.2 f v h0 hch ev hev
      · have hget : getField (setField md f0 v0) f = getField md f :=
          getField_setField_ne md f0 f v0 hne
        have hmem2 := ih (setField md f0 v0) hnd.2 f v h0
          (by rw [hget]; exact hch) ev hev
        rw [hget] at hmem2
        by_cases hTS : f0 = "todoState"
        · subst hTS
          simp only [applyUpdates, if_neg hch0]
          have hFE : FIELD_EVENTS "todoState" = some "StatusStateChange" := rfl
          rw [hFE]
          exact List.mem_cons_of_mem _ hmem2
        · simp only [applyUpdates, if_neg hch0]
          have hFE : FIELD_EVENTS f0 = none := by simp [FIELD_EVENTS, hTS]
          rw [hFE]
          exact hmem2

/-- Claim C3: on a registered session, an update in which every supplied
field equals its stored value emits no event and returns the empty
list; and every genuinely changed supplied field with a mapped event
gets that event emitted with `oldState`/`newState` equal to the before
and after values. -/
theorem updateSessionMetadata_diff (store : List (String × List (String × String)))
    (sid : String) (md : List (String × String)) (upd : List (String × String))
    (hreg : getSession store sid = some md) :
    ((∀ fv ∈ upd, getField md fv.1 = some fv.2) →
      updateSessionMetadata store sid upd = .ok (setSession store sid md, [])) ∧
    ((upd.map Prod.fst).Nodup →
      ∀ f v, (f, v) ∈ upd → getField md f ≠ some v →
        ∀ ev, FIELD_EVENTS f = some ev →
          updateSessionMetadata store sid upd =
            .ok (setSession store sid (applyUpdates md upd).1,
                 (applyUpdates md upd).2) ∧
          (⟨ev, getField md f, v⟩ : EmittedEvent) ∈ (applyUpdates md upd).2) := by
  constructor
  · intro h
    simp only [updateSessionMetadata, hreg, applyUpdates_no_change md upd h]
  · intro hnd f v hmem hch ev hev
    refine ⟨by simp only [updateSessionMetadata, hreg], ?_⟩
    exact applyUpdates_changed_mem md upd hnd f v hmem hch ev hev

/-- Witness for C3: the rename test's scenario — session `s1`
initialized with `todoState = backlog`, updated to `todo`, emits
`StatusStateChange` with `{oldState: backlog, newState: todo}`. -/
theorem updateSessionMetadata_diff_witness :
    updateSessionMetadata [("s1", [("todoState", "backlog")])] "s1"
        [("todoState", "todo")] =
      .ok (setSession [("s1", [("todoState", "backlog")])] "s1"
            (applyUpdates [("todoState", "backlog")] [("todoState", "todo")]).1,
           (applyUpdates [("todoState", "backlog")] [("todoState", "todo")]).2) ∧
    (⟨"StatusStateChange", some "backlog", "todo"⟩ : EmittedEvent) ∈
      (applyUpdates [("todoState", "backlog")] [("todoState", "todo")]).2 :=
  (updateSessionMetadata_diff [("s1", [("todoState", "backlog")])] "s1"
    [("todoState", "backlog")] [("todoState", "todo")] (by decide)).2
    (by decide) "todoState" "todo" (by decide) (by decide)
    "StatusStateChange" (by decide)

/-- A string has positive length exactly when it is not empty. -/
theorem string_length_pos_iff (s : String) : 0 < s.length ↔ s ≠ "" := by
  rw [String.length, List.length_pos]
  constructor
  · intro h hc
    subst hc
    exact h rfl
  · intro h hc
    apply h
    cases s with
    | mk data =>
      simp at hc
      simp [hc]

/-- The acceptance check in the form of the contract: trim, then
accept exactly when non-empty and strictly under 100 characters. -/
theorem acceptTitle_eq (r : String) :
    acceptTitle r =
      (if trimString r ≠ "" ∧ (trimString r).length < 100
       then some (trimString r) else none) := by
  unfold acceptTitle
  rcases iff_iff_implies_and_implies.mp
    (string_length_pos_iff (trimString r)) with ⟨h1, h2⟩
  by_cases hp : 0 < (trimString r).length
  · by_cases hl : (trimString r).length < 100 <;>
      simp [hp, hl, h1 hp]
  · have hz : trimString r = "" := by
      by_contra hc
      exact hp (h2 hc)
    simp [hp, hz]

/-- Claim C9: a thrown or failed collaborator call makes the title generator
return `none` rather than raise; returned text is trimmed and accepted
exactly when the trimmed result is non-empty and strictly under 100
characters; the OpenAI path applies the same rule, including for
absent content. -/
theorem generateSessionTitle_accepts (msgs : List SdkMessage)
    (tok : Option String) (c : String) (htok : truthy tok = true) :
    generateSessionTitle (.error ()) = none ∧
    generateSessionTitle (.ok msgs) =
      (if trimString (collectTitle msgs) ≠ "" ∧
          (trimString (collectTitle msgs)).length < 100
       then some (trimString (collectTitle msgs)) else none) ∧
    generateTitleWithOpenAI tok (.error ()) = none ∧
    generateTitleWithOpenAI tok (.ok none) = none ∧
    generateTitleWithOpenAI tok (.ok (some c)) =
      (if trimString c ≠ "" ∧ (trimString c).length < 100
       then some (trimString c) else none) := by
  refine ⟨rfl, acceptTitle_eq (collectTitle msgs),
    by simp [generateTitleWithOpenAI, htok],
    by simp [generateTitleWithOpenAI, htok], ?_⟩
  by_cases hc : c = ""
  · subst hc
    have htrim : trimString "" = "" := rfl
    simp [generateTitleWithOpenAI, htok, htrim]
  · have hlhs : generateTitleWithOpenAI tok (.ok (some c)) = acceptTitle c := by
      simp [generateTitleWithOpenAI, htok, hc]
    rw [hlhs]
    exact acceptTitle_eq c

/-- Witness for C9: a concrete OpenAI credential and response. -/
theorem generateSessionTitle_accepts_witness :
    generateSessionTitle (.ok [.assistant [.text " Fix authentication bug "]]) =
      some "Fix authentication bug" ∧
    generateTitleWithOpenAI (some "sk-key") (.ok (some " Add dark mode ")) =
      some "Add dark mode" := by
  have h := generateSessionTitle_accepts
    [.assistant [.text " Fix authentication bug "]]
    (some "sk-key") " Add dark mode " (by decide)
  refine ⟨?_, ?_⟩
  · rw [h.2.1]
    decide
  · rw [h.2.2.2.2]
    decide

end CraftAgents
